import Mathlib

/-!
# Sigma-I authentication sub-message (`internal/ake/internal/sigma-i/messages.go`)

A shallow embedding of the four methods of `messages.go`:
`encryptedResponse`, `encryptSubMessage`, `decryptSubMessage` and `verify`.

Conventions of the embedding.

* A Go `[]byte` is a `List UInt8`.  Where the code tests a slice against `nil`
  (`s.peer.pubkey == nil`) the field is an `Option Bytes`, `none` being the nil
  slice; everywhere else a nil slice is read as the empty one (`sliceBytes`),
  which is how `bytes.Equal`, `append` and a hash see it.
* A Go `error` is a `GoError`; a method returning `(T, error)` is an
  `Except GoError T`.
* `verify` can panic, so it returns an `Outcome`: either the panic with its
  message, or the returned `error` (`none` is Go's `nil`, i.e. success).
* The collaborators reached through interfaces or other packages (the signer
  `s.sig`, the hash `s.hash`, the authenticated encryption `s.rkr` and the
  `encoding/gob` codec) are records of functions: the code is verified for
  every choice of them.
-/

namespace sigmai

/-- A Go byte slice, by value. -/
abbrev Bytes := List UInt8

/-- Go `error` values that the methods of `messages.go` can return.
`external` is an error produced by a collaborator (`rkr.Decrypt`, the gob
encoder or decoder) and handed on unchanged; the four others are the errors
that `verify` builds itself, in source order. -/
inductive GoError where
  /-- an error value returned by `Decrypt`, `enc.Encode` or `dec.Decode` -/
  | external (msg : String)
  /-- the error of `fmt.Errorf("sigma-i: peer sent ID '%v' doesn't match '%v'", got, want)` -/
  | idMismatch (got want : Bytes)
  /-- the error of `errors.New("sigma-i: peer sent public key doesn't match")` -/
  | pubkeyMismatch
  /-- the error of `errors.New("sigma-i: invalid peer mac")` -/
  | invalidMac
  /-- the error of `errors.New("sigma-i: invalid peer signature")` -/
  | invalidSignature
  deriving DecidableEq, Repr

/-- What a call of `verify` does: it panics, or it returns an `error`
(`returned none` is the Go return value `nil`). -/
inductive Outcome where
  | panicked (msg : String)
  | returned (err : Option GoError)
  deriving DecidableEq, Repr

/-- The Go struct `id` of `messages.go`. -/
structure id where
  ID : Bytes
  PublicKey : Bytes
  deriving DecidableEq, Repr

/-- The Go struct `auth` of `messages.go`. -/
structure auth where
  ID : id
  Sig : Bytes
  Mac : Bytes
  deriving DecidableEq, Repr

/-- The signer behind `s.sig`, an interface of another package.  `signBytes`
signs one byte string with the signer's private key; `Verify publicKey message
signature` is the call `s.sig.Verify(pubkey, ms, sm.Sig)`. -/
structure Signature where
  GetPublicKey : Bytes
  signBytes : Bytes → Bytes
  Verify : Bytes → Bytes → Bytes → Bool

/-- Concatenation of the arguments of a variadic call, in call order. -/
def concatenate : List Bytes → Bytes
  | [] => []
  | b :: rest => b ++ concatenate rest

/-- Modelled from the spec: the declaration of the signer's variadic
`Sign(message ...[]byte)` is not part of this package; by the interface
`sign(message: bytes)` and `signature = Sign(own_private_key, peer_share ‖
own_share)`, the call signs the concatenation of its arguments in the order
they are passed. -/
def Signature.Sign (sg : Signature) (message : List Bytes) : Bytes :=
  sg.signBytes (concatenate message)

/-- The hash behind `s.hash`; `Hmac message key` is the call
`s.hash.Hmac(message, key)`. -/
structure Hash where
  Hmac : Bytes → Bytes → Bytes

/-- The authenticated encryption behind `s.rkr`: `Encrypt key plaintext` cannot
fail, `Decrypt key ciphertext` returns the plaintext or an error. -/
structure RKRAuthenticatedEncryption where
  Encrypt : Bytes → Bytes → Bytes
  Decrypt : Bytes → Bytes → Except GoError Bytes

/-- The `encoding/gob` codec on `auth` values: `Encode` is
`gob.NewEncoder(&buf).Encode(sm)` followed by `buf.Bytes()`, `Decode` is
`gob.NewDecoder(bytes.NewBuffer(p)).Decode(&sm)`. -/
structure Gob where
  Encode : auth → Except GoError Bytes
  Decode : Bytes → Except GoError auth

/-- The Diffie-Hellman state `s.dh`: own share `exp` and peer share `peerExp`. -/
structure dh where
  exp : Bytes
  peerExp : Bytes
  deriving DecidableEq, Repr

/-- The session keys `s.sk`: MAC key `km` and encryption key `ke`. -/
structure sessionKeys where
  km : Bytes
  ke : Bytes
  deriving DecidableEq, Repr

/-- The peer state `s.peer`; `none` is a slice that is still `nil`. -/
structure peer where
  id : Option Bytes
  pubkey : Option Bytes
  deriving DecidableEq, Repr

/-- The receiver `*SigmaI`, with the fields that `messages.go` reads. -/
structure SigmaI where
  id : Bytes
  dh : dh
  sk : sessionKeys
  sig : Signature
  hash : Hash
  rkr : RKRAuthenticatedEncryption
  peer : peer

/-- The bytes of a slice that may be `nil`: a nil slice has no bytes. -/
def sliceBytes : Option Bytes → Bytes
  | none => []
  | some b => b

/-- The Go function `bytes.Equal`: same length and same bytes. -/
def bytesEqual (a b : Bytes) : Bool := decide (a = b)

/-- The Go function `hmac.Equal`: the same relation as `bytes.Equal`, computed
without an early exit (its running time is not part of this model). -/
def hmacEqual (mac1 mac2 : Bytes) : Bool := decide (mac1 = mac2)

/-- The panic message of `verify`. -/
def peerKeyPanic : String :=
  "peer's public key hasn't been set. Have you SetPeerPublicKey() before this ?"

/-- The method `func (s *SigmaI) encryptSubMessage(sm *auth) ([]byte, error)`:
gob-encode, then encrypt under `s.sk.ke`. -/
def encryptSubMessage (gob : Gob) (s : SigmaI) (sm : auth) : Except GoError Bytes :=
  match gob.Encode sm with
  | .error err => .error err
  | .ok buf => .ok (s.rkr.Encrypt s.sk.ke buf)

/-- The `auth` literal built at the head of `encryptedResponse`. -/
def responseMessage (s : SigmaI) : auth :=
  { ID := { ID := s.id, PublicKey := s.sig.GetPublicKey }
    Sig := s.sig.Sign [s.dh.peerExp, s.dh.exp]
    Mac := s.hash.Hmac s.id s.sk.km }

/-- The method `func (s *SigmaI) encryptedResponse() ([]byte, error)`. -/
def encryptedResponse (gob : Gob) (s : SigmaI) : Except GoError Bytes :=
  let sm := responseMessage s
  encryptSubMessage gob s sm

/-- The method `func (s *SigmaI) decryptSubMessage(m []byte) (*auth, error)`:
decrypt under `s.sk.ke`, then gob-decode. -/
def decryptSubMessage (gob : Gob) (s : SigmaI) (m : Bytes) : Except GoError auth :=
  match s.rkr.Decrypt s.sk.ke m with
  | .error err => .error err
  | .ok p =>
    match gob.Decode p with
    | .error err => .error err
    | .ok sm => .ok sm

/-- The transcript `ms := append(s.dh.exp, s.dh.peerExp...)` of `verify`. -/
def verifyTranscript (s : SigmaI) : Bytes :=
  s.dh.exp ++ s.dh.peerExp

/-- The method `func (s *SigmaI) verify(encryptedSubMessage []byte) error`. -/
def verify (gob : Gob) (s : SigmaI) (encryptedSubMessage : Bytes) : Outcome :=
  match s.peer.pubkey with
  | none => .panicked peerKeyPanic
  | some pubkey =>
    match decryptSubMessage gob s encryptedSubMessage with
    | .error _ => .returned none
    | .ok sm =>
      if !bytesEqual sm.ID.ID (sliceBytes s.peer.id) then
        .returned (some (.idMismatch sm.ID.ID (sliceBytes s.peer.id)))
      else if !bytesEqual sm.ID.PublicKey pubkey then
        .returned (some .pubkeyMismatch)
      else
        let pmac := s.hash.Hmac (sliceBytes s.peer.id) s.sk.km
        if !hmacEqual pmac sm.Mac then
          .returned (some .invalidMac)
        else
          let ms := verifyTranscript s
          if !s.sig.Verify pubkey ms sm.Sig then
            .returned (some .invalidSignature)
          else
            .returned none

/-! ## The methods as Go executes them: result pairs and the instance after the call

The methods have a pointer receiver, so a call could assign to the fields of
`*s`, and `decryptSubMessage` returns the Go pair `(*auth, error)`, either
half of which can be `nil`.  The definitions below follow the source statement
by statement, return the pair as it is returned, and return the instance as
each exit path leaves it.

One statement of `verify` writes to memory: `append(s.dh.exp, s.dh.peerExp...)`
on line 99 stores the peer share behind the own share, in the backing array of
`s.dh.exp` when its spare capacity is large enough.  That memory is not a field
of the instance, but another slice of the instance may share it, which a slice
held by value cannot tell.  `verifyState` therefore takes the spare capacity as
an argument and returns no instance (`none`) when the append writes in place:
what the instance then holds is outside this model. -/

/-- The panic of the Go runtime when a field is read through a nil pointer. -/
def nilDereferencePanic : String :=
  "runtime error: invalid memory address or nil pointer dereference"

/-- The method `decryptSubMessage`, returning the Go pair `(*auth, error)` of
each `return` statement: `nil, err` on lines 54 and 64, `&sm, nil` on line 67. -/
def decryptSubMessagePair (gob : Gob) (s : SigmaI) (m : Bytes) :
    Option auth × Option GoError :=
  match s.rkr.Decrypt s.sk.ke m with
  | .error err => (none, some err)
  | .ok p =>
    match gob.Decode p with
    | .error err => (none, some err)
    | .ok sm => (some sm, none)

/-- The method `encryptSubMessage`, with the instance after the call: the
pair `([]byte, error)` of each `return` statement (`nil, err` on line 43, the
ciphertext and `nil` on line 47), and `*s`, to which no statement assigns. -/
def encryptSubMessageState (gob : Gob) (s : SigmaI) (sm : auth) :
    (Option Bytes × Option GoError) × SigmaI :=
  match gob.Encode sm with
  | .error err => ((none, some err), s)
  | .ok buf => ((some (s.rkr.Encrypt s.sk.ke buf), none), s)

/-- The method `encryptedResponse`, with the instance after the call: it
builds the message from reads of `*s` and returns what `encryptSubMessage`
returns. -/
def encryptedResponseState (gob : Gob) (s : SigmaI) :
    (Option Bytes × Option GoError) × SigmaI :=
  let sm := responseMessage s
  encryptSubMessageState gob s sm

/-- The method `verify` on the Go pair of `decryptSubMessage`.  The decoded
message `sm` is the pointer returned by `decryptSubMessage`; reading `sm.ID`
through a nil pointer panics. -/
def verifyPair (gob : Gob) (s : SigmaI) (encryptedSubMessage : Bytes) : Outcome :=
  match s.peer.pubkey with
  | none => .panicked peerKeyPanic
  | some pubkey =>
    match decryptSubMessagePair gob s encryptedSubMessage with
    | (_, some _) => .returned none
    | (none, none) => .panicked nilDereferencePanic
    | (some sm, none) =>
      if !bytesEqual sm.ID.ID (sliceBytes s.peer.id) then
        .returned (some (.idMismatch sm.ID.ID (sliceBytes s.peer.id)))
      else if !bytesEqual sm.ID.PublicKey pubkey then
        .returned (some .pubkeyMismatch)
      else
        let pmac := s.hash.Hmac (sliceBytes s.peer.id) s.sk.km
        if !hmacEqual pmac sm.Mac then
          .returned (some .invalidMac)
        else
          let ms := verifyTranscript s
          if !s.sig.Verify pubkey ms sm.Sig then
            .returned (some .invalidSignature)
          else
            .returned none

/-- Whether the Go builtin `append(a, added...)` writes into the backing array
of `a`, of spare capacity `spare = cap(a) - len(a)`: it stores the added bytes
in place when there are some and they fit, and it copies to a new array, which
nothing else refers to, when they do not fit. -/
def appendInPlace (spare : Nat) (added : Bytes) : Bool :=
  decide (0 < added.length ∧ added.length ≤ spare)

/-- The instance after line 99, `ms := append(s.dh.exp, s.dh.peerExp...)`: the
instance as it was when the append does not write in place; not determined
(`none`) when it does, since the bytes behind `s.dh.exp` are overwritten with
the peer share and may belong to another slice of the instance. -/
def afterAppend (spare : Nat) (s : SigmaI) : Option SigmaI :=
  if appendInPlace spare s.dh.peerExp then none else some s

/-- The method `verify`, with the instance after the call; `spare` is
`cap(s.dh.exp) - len(s.dh.exp)`.  Before line 99 no statement writes to the
instance or to memory, so the exit paths up to the MAC check leave `s`; the two
exit paths after line 99 leave `afterAppend spare s`. -/
def verifyState (gob : Gob) (spare : Nat) (s : SigmaI) (encryptedSubMessage : Bytes) :
    Outcome × Option SigmaI :=
  match s.peer.pubkey with
  | none => (.panicked peerKeyPanic, some s)
  | some pubkey =>
    match decryptSubMessagePair gob s encryptedSubMessage with
    | (_, some _) => (.returned none, some s)
    | (none, none) => (.panicked nilDereferencePanic, some s)
    | (some sm, none) =>
      if !bytesEqual sm.ID.ID (sliceBytes s.peer.id) then
        (.returned (some (.idMismatch sm.ID.ID (sliceBytes s.peer.id))), some s)
      else if !bytesEqual sm.ID.PublicKey pubkey then
        (.returned (some .pubkeyMismatch), some s)
      else
        let pmac := s.hash.Hmac (sliceBytes s.peer.id) s.sk.km
        if !hmacEqual pmac sm.Mac then
          (.returned (some .invalidMac), some s)
        else
          let ms := verifyTranscript s
          if !s.sig.Verify pubkey ms sm.Sig then
            (.returned (some .invalidSignature), afterAppend spare s)
          else
            (.returned none, afterAppend spare s)

/-- A key is cleared when no byte of it is left in memory: every byte of the
slice is zero (the empty and the nil slice included). -/
def cleared (key : Bytes) : Bool :=
  key.all (fun b => b == 0)

/-! ## Fixtures: small collaborators and instances on which the code is run -/

/-- A signer for the fixtures: the key pair is `(pk, pk)`, the signature of `x`
is `pk ++ x`, and a signature is accepted under `publicKey` for `message` when
it is exactly `publicKey ++ message`. -/
def fixtureSignature (pk : Bytes) : Signature :=
  { GetPublicKey := pk
    signBytes := fun x => pk ++ x
    Verify := fun publicKey message signature => decide (signature = publicKey ++ message) }

/-- A hash for the fixtures: the tag of `message` under `key` is `key ++ message`. -/
def fixtureHash : Hash :=
  { Hmac := fun message key => key ++ message }

/-- An authenticated encryption for the fixtures: the ciphertext is the key
followed by the plaintext; decryption fails unless the ciphertext starts with
the key. -/
def fixtureRkr : RKRAuthenticatedEncryption :=
  { Encrypt := fun key plaintext => key ++ plaintext
    Decrypt := fun key ciphertext =>
      if key.isPrefixOf ciphertext then .ok (ciphertext.drop key.length)
      else .error (.external "rkr: authentication failed") }

/-- Writes one field of the fixture codec: a length byte, then the bytes. -/
def putField (b : Bytes) : Option Bytes :=
  if b.length < 256 then some (UInt8.ofNat b.length :: b) else none

/-- Reads one field of the fixture codec; returns the field and the rest. -/
def getField : Bytes → Option (Bytes × Bytes)
  | [] => none
  | n :: rest =>
    if n.toNat ≤ rest.length then some (rest.take n.toNat, rest.drop n.toNat) else none

/-- A codec for the fixtures: the four byte strings of an `auth`, each behind
its length byte; encoding fails on a field of 256 bytes or more, decoding fails
on truncated or trailing input. -/
def fixtureGob : Gob :=
  { Encode := fun sm =>
      match putField sm.ID.ID, putField sm.ID.PublicKey, putField sm.Sig, putField sm.Mac with
      | some a, some b, some c, some d => .ok (a ++ b ++ c ++ d)
      | _, _, _, _ => .error (.external "gob: field too long")
    Decode := fun p =>
      match getField p with
      | none => .error (.external "gob: unexpected EOF")
      | some (a, p1) =>
        match getField p1 with
        | none => .error (.external "gob: unexpected EOF")
        | some (b, p2) =>
          match getField p2 with
          | none => .error (.external "gob: unexpected EOF")
          | some (c, p3) =>
            match getField p3 with
            | some (d, []) => .ok { ID := { ID := a, PublicKey := b }, Sig := c, Mac := d }
            | _ => .error (.external "gob: unexpected EOF") }

/-- The identifier "alice". -/
def aliceId : Bytes := [97, 108, 105, 99, 101]

/-- The identifier "bob". -/
def bobId : Bytes := [98, 111, 98]

/-- The public key `PkA` of alice. -/
def PkA : Bytes := [0xA1, 0xA2, 0xA3, 0xA4]

/-- The public key of bob. -/
def PkB : Bytes := [0xB1, 0xB2, 0xB3, 0xB4]

/-- The MAC key `km = 0x00..01` on 32 bytes. -/
def fixtureKm : Bytes := List.replicate 31 0 ++ [1]

/-- The encryption key of the fixtures. -/
def fixtureKe : Bytes := [0xE0, 0xE1]

/-- The sender alice: own share `[1, 2, 3]`, peer share `[4, 5]`. -/
def alice : SigmaI :=
  { id := aliceId
    dh := { exp := [1, 2, 3], peerExp := [4, 5] }
    sk := { km := fixtureKm, ke := fixtureKe }
    sig := fixtureSignature PkA
    hash := fixtureHash
    rkr := fixtureRkr
    peer := { id := some bobId, pubkey := some PkB } }

/-- The receiver bob, whose peer state is alice's identity. -/
def bob : SigmaI :=
  { id := bobId
    dh := { exp := [4, 5], peerExp := [1, 2, 3] }
    sk := { km := fixtureKm, ke := fixtureKe }
    sig := fixtureSignature PkB
    hash := fixtureHash
    rkr := fixtureRkr
    peer := { id := some aliceId, pubkey := some PkA } }

/-- The ciphertext of alice's response under the fixture collaborators. -/
def aliceCiphertext : Bytes :=
  fixtureKe ++ ([5] ++ aliceId ++ [4] ++ PkA ++ [9] ++ (PkA ++ [4, 5, 1, 2, 3])
    ++ [37] ++ (fixtureKm ++ aliceId))

/-- A receiver on which the peer identity was never set. -/
def fresh : SigmaI :=
  { bob with peer := { id := none, pubkey := none } }

/-- A receiver that holds alice's public key but no peer identifier. -/
def bobNoId : SigmaI :=
  { bob with peer := { id := none, pubkey := some PkA } }

/-- A sender with alice's keys and shares and the empty identifier. -/
def anonymous : SigmaI :=
  { alice with id := [] }

/-- The ciphertext of the response of `anonymous`. -/
def anonymousCiphertext : Bytes :=
  fixtureKe ++ ([0] ++ [4] ++ PkA ++ [9] ++ (PkA ++ [4, 5, 1, 2, 3]) ++ [32] ++ fixtureKm)

/-- A ciphertext that does not start with the encryption key: `Decrypt` fails. -/
def forgedCiphertext : Bytes := [0xBA, 0xD0]

/-- A ciphertext that decrypts to a plaintext the codec cannot decode. -/
def garbledCiphertext : Bytes := fixtureKe ++ [200]

/-- The faulty sender of the transcript-order property: the `auth` literal of
`encryptedResponse` with the two arguments of `Sign` exchanged, own share
first.  It is not code of the package; it is the sender that the property
compares the code with. -/
def swappedResponseMessage (s : SigmaI) : auth :=
  { ID := { ID := s.id, PublicKey := s.sig.GetPublicKey }
    Sig := s.sig.Sign [s.dh.exp, s.dh.peerExp]
    Mac := s.hash.Hmac s.id s.sk.km }

/-- The response of the faulty sender: `encryptedResponse` on the swapped
message. -/
def swappedResponse (gob : Gob) (s : SigmaI) : Except GoError Bytes :=
  let sm := swappedResponseMessage s
  encryptSubMessage gob s sm

/-- A sender with alice's identity whose peer sent its own share back. -/
def carol : SigmaI :=
  { alice with dh := { exp := [7, 7], peerExp := [7, 7] } }

/-- The receiver facing `carol`. -/
def dave : SigmaI :=
  { bob with dh := { exp := [7, 7], peerExp := [7, 7] } }

/-- The ciphertext of the swapped response of `carol`. -/
def carolCiphertext : Bytes :=
  fixtureKe ++ ([5] ++ aliceId ++ [4] ++ PkA ++ [8] ++ (PkA ++ [7, 7, 7, 7])
    ++ [37] ++ (fixtureKm ++ aliceId))

/-- The ciphertext of the swapped response of `alice`. -/
def aliceSwappedCiphertext : Bytes :=
  fixtureKe ++ ([5] ++ aliceId ++ [4] ++ PkA ++ [9] ++ (PkA ++ [1, 2, 3, 4, 5])
    ++ [37] ++ (fixtureKm ++ aliceId))

/-- A message that the fixture codec cannot encode: its identifier has 256
bytes. -/
def oversized : auth :=
  { ID := { ID := List.replicate 256 0, PublicKey := [] }, Sig := [], Mac := [] }

/-! ## Theorems -/

/-! ### Shared lemmas on `verify` -/

theorem verify_pubkey_nil (gob : Gob) (s : SigmaI) (ct : Bytes)
    (hpk : s.peer.pubkey = none) : verify gob s ct = .panicked peerKeyPanic := by
  simp [verify, hpk]

theorem verify_decrypt_error (gob : Gob) (s : SigmaI) (ct pk : Bytes) (e : GoError)
    (hpk : s.peer.pubkey = some pk) (hdec : decryptSubMessage gob s ct = .error e) :
    verify gob s ct = .returned none := by
  simp [verify, hpk, hdec]

theorem verify_id_mismatch (gob : Gob) (s : SigmaI) (ct pk : Bytes) (sm : auth)
    (hpk : s.peer.pubkey = some pk) (hdec : decryptSubMessage gob s ct = .ok sm)
    (hid : sm.ID.ID ≠ sliceBytes s.peer.id) :
    verify gob s ct = .returned (some (.idMismatch sm.ID.ID (sliceBytes s.peer.id))) := by
  simp [verify, hpk, hdec, bytesEqual, hid]

theorem verify_pubkey_mismatch (gob : Gob) (s : SigmaI) (ct pk : Bytes) (sm : auth)
    (hpk : s.peer.pubkey = some pk) (hdec : decryptSubMessage gob s ct = .ok sm)
    (hid : sm.ID.ID = sliceBytes s.peer.id) (hkey : sm.ID.PublicKey ≠ pk) :
    verify gob s ct = .returned (some .pubkeyMismatch) := by
  simp [verify, hpk, hdec, bytesEqual, hid, hkey]

theorem verify_mac_mismatch (gob : Gob) (s : SigmaI) (ct pk : Bytes) (sm : auth)
    (hpk : s.peer.pubkey = some pk) (hdec : decryptSubMessage gob s ct = .ok sm)
    (hid : sm.ID.ID = sliceBytes s.peer.id) (hkey : sm.ID.PublicKey = pk)
    (hmac : sm.Mac ≠ s.hash.Hmac (sliceBytes s.peer.id) s.sk.km) :
    verify gob s ct = .returned (some .invalidMac) := by
  have hmac2 : ¬ s.hash.Hmac (sliceBytes s.peer.id) s.sk.km = sm.Mac := fun h => hmac h.symm
  simp [verify, hpk, hdec, bytesEqual, hmacEqual, hid, hkey, hmac2]

theorem verify_signature_mismatch (gob : Gob) (s : SigmaI) (ct pk : Bytes) (sm : auth)
    (hpk : s.peer.pubkey = some pk) (hdec : decryptSubMessage gob s ct = .ok sm)
    (hid : sm.ID.ID = sliceBytes s.peer.id) (hkey : sm.ID.PublicKey = pk)
    (hmac : sm.Mac = s.hash.Hmac (sliceBytes s.peer.id) s.sk.km)
    (hsig : s.sig.Verify pk (s.dh.exp ++ s.dh.peerExp) sm.Sig = false) :
    verify gob s ct = .returned (some .invalidSignature) := by
  simp [verify, hpk, hdec, bytesEqual, hmacEqual, verifyTranscript, hid, hkey, hmac, hsig]

theorem verify_all_pass (gob : Gob) (s : SigmaI) (ct pk : Bytes) (sm : auth)
    (hpk : s.peer.pubkey = some pk) (hdec : decryptSubMessage gob s ct = .ok sm)
    (hid : sm.ID.ID = sliceBytes s.peer.id) (hkey : sm.ID.PublicKey = pk)
    (hmac : sm.Mac = s.hash.Hmac (sliceBytes s.peer.id) s.sk.km)
    (hsig : s.sig.Verify pk (s.dh.exp ++ s.dh.peerExp) sm.Sig = true) :
    verify gob s ct = .returned none := by
  simp [verify, hpk, hdec, bytesEqual, hmacEqual, verifyTranscript, hid, hkey, hmac, hsig]

theorem verify_decoded_success_iff (gob : Gob) (s : SigmaI) (ct pk : Bytes) (sm : auth)
    (hpk : s.peer.pubkey = some pk) (hdec : decryptSubMessage gob s ct = .ok sm) :
    verify gob s ct = .returned none ↔
      (sm.ID.ID = sliceBytes s.peer.id ∧ sm.ID.PublicKey = pk ∧
        sm.Mac = s.hash.Hmac (sliceBytes s.peer.id) s.sk.km ∧
        s.sig.Verify pk (s.dh.exp ++ s.dh.peerExp) sm.Sig = true) := by
  constructor
  · intro h
    by_cases hid : sm.ID.ID = sliceBytes s.peer.id
    · by_cases hkey : sm.ID.PublicKey = pk
      · by_cases hmac : sm.Mac = s.hash.Hmac (sliceBytes s.peer.id) s.sk.km
        · cases hsig : s.sig.Verify pk (s.dh.exp ++ s.dh.peerExp) sm.Sig
          · rw [verify_signature_mismatch gob s ct pk sm hpk hdec hid hkey hmac hsig] at h
            cases h
          · exact ⟨hid, hkey, hmac, rfl⟩
        · rw [verify_mac_mismatch gob s ct pk sm hpk hdec hid hkey hmac] at h
          cases h
      · rw [verify_pubkey_mismatch gob s ct pk sm hpk hdec hid hkey] at h
        cases h
    · rw [verify_id_mismatch gob s ct pk sm hpk hdec hid] at h
      cases h
  · rintro ⟨hid, hkey, hmac, hsig⟩
    exact verify_all_pass gob s ct pk sm hpk hdec hid hkey hmac hsig

/-! ### C1, C2: a ciphertext that cannot be decrypted or decoded -/

/-- C1, evaluated on the code: with the peer public key set, `verify` returns
`nil` (success) both for a ciphertext on which `Decrypt` fails and for one whose
plaintext does not decode; the error of `decryptSubMessage` is dropped by the
`return nil` of line 80 instead of being returned. -/
theorem verify_swallows_decrypt_failure :
    bob.peer.pubkey = some PkA ∧
    decryptSubMessage fixtureGob bob forgedCiphertext
      = .error (.external "rkr: authentication failed") ∧
    verify fixtureGob bob forgedCiphertext = .returned none ∧
    decryptSubMessage fixtureGob bob garbledCiphertext
      = .error (.external "gob: unexpected EOF") ∧
    verify fixtureGob bob garbledCiphertext = .returned none :=
  ⟨rfl, rfl, by decide, rfl, by decide⟩

/-- C2, evaluated on the code: on the empty ciphertext, with the peer public key
set, `verify` returns success although no message was decoded, so that no
decoded identifier, public key, MAC or signature matches anything: the
"only if" half of the equivalence fails on the code. -/
theorem verify_success_without_message :
    bob.peer.pubkey = some PkA ∧
    verify fixtureGob bob [] = .returned none ∧
    ¬ ∃ sm : auth, decryptSubMessage fixtureGob bob [] = .ok sm ∧
        sm.ID.ID = sliceBytes bob.peer.id ∧ sm.ID.PublicKey = PkA ∧
        sm.Mac = bob.hash.Hmac (sliceBytes bob.peer.id) bob.sk.km ∧
        bob.sig.Verify PkA (bob.dh.exp ++ bob.dh.peerExp) sm.Sig = true := by
  refine ⟨rfl, by decide, ?_⟩
  rintro ⟨sm, hdec, -⟩
  have herr : decryptSubMessage fixtureGob bob []
      = .error (.external "rkr: authentication failed") := rfl
  rw [herr] at hdec
  cases hdec

/-! ### C3, C4: the precondition on the peer state -/

/-- C3 as stated fails: on a receiver whose peer public key is unset, `verify`
panics; it does not return an error value to its caller. -/
theorem verify_unset_key_not_an_error :
    fresh.peer.pubkey = none ∧
    verify fixtureGob fresh aliceCiphertext = .panicked peerKeyPanic ∧
    ¬ ∃ e : GoError, verify fixtureGob fresh aliceCiphertext = .returned (some e) := by
  refine ⟨rfl, by decide, ?_⟩
  rintro ⟨e, he⟩
  have hp : verify fixtureGob fresh aliceCiphertext = .panicked peerKeyPanic := by decide
  rw [hp] at he
  cases he

/-- C3 amended: for every codec, every instance whose peer public key is unset
and every ciphertext, `verify` panics with the message of line 74; in
particular it returns neither success nor an error. -/
theorem verify_unset_key_panics (gob : Gob) (s : SigmaI) (ct : Bytes)
    (hpk : s.peer.pubkey = none) :
    verify gob s ct = .panicked peerKeyPanic ∧
    (∀ r : Option GoError, verify gob s ct ≠ .returned r) := by
  have hp := verify_pubkey_nil gob s ct hpk
  refine ⟨hp, ?_⟩
  intro r hr
  rw [hp] at hr
  cases hr

theorem verify_unset_key_panics_witness :
    fresh.peer.pubkey = none ∧
    verify fixtureGob fresh forgedCiphertext = .panicked peerKeyPanic ∧
    (∀ r : Option GoError, verify fixtureGob fresh forgedCiphertext ≠ .returned r) :=
  ⟨rfl, verify_unset_key_panics fixtureGob fresh forgedCiphertext rfl⟩

/-- C4 as stated fails: a receiver with the peer public key set and the peer
identifier unset accepts the response of a sender whose identifier is empty;
`verify` runs the four checks and returns success. -/
theorem verify_unset_id_accepts :
    bobNoId.peer.id = none ∧ bobNoId.peer.pubkey = some PkA ∧
    encryptedResponse fixtureGob anonymous = .ok anonymousCiphertext ∧
    verify fixtureGob bobNoId anonymousCiphertext = .returned none :=
  ⟨rfl, rfl, rfl, by decide⟩

/-- C4 amended: for every instance whose peer identifier is unset and every
ciphertext, (1) when the peer public key is unset too, `verify` panics before
any check; (2) when the peer public key is set, the unset identifier is
compared as the empty byte string, so a ciphertext that decrypts and decodes to
a message with a non-empty identifier is rejected with the identity-mismatch
error. -/
theorem verify_unset_id (gob : Gob) (s : SigmaI) (ct : Bytes)
    (hid : s.peer.id = none) :
    (s.peer.pubkey = none → verify gob s ct = .panicked peerKeyPanic) ∧
    (∀ (pk : Bytes) (sm : auth), s.peer.pubkey = some pk →
      decryptSubMessage gob s ct = .ok sm → sm.ID.ID ≠ [] →
      verify gob s ct = .returned (some (.idMismatch sm.ID.ID []))) := by
  refine ⟨verify_pubkey_nil gob s ct, ?_⟩
  intro pk sm hpk hdec hne
  have h := verify_id_mismatch gob s ct pk sm hpk hdec (by simpa [hid, sliceBytes] using hne)
  simpa [hid, sliceBytes] using h

theorem verify_unset_id_witness :
    bobNoId.peer.id = none ∧
    verify fixtureGob bobNoId aliceCiphertext = .returned (some (.idMismatch aliceId [])) :=
  ⟨rfl, (verify_unset_id fixtureGob bobNoId aliceCiphertext rfl).2 PkA (responseMessage alice)
    rfl rfl (by decide)⟩

/-! ### C5: the order of the checks -/

/-- C5: when the peer public key is set and the ciphertext decrypts and decodes
to `sm`, `verify` returns the error of the first failing check in the order
identifier, public key, MAC, signature, and returns success exactly when the
four checks pass. -/
theorem verify_first_failing_check (gob : Gob) (s : SigmaI) (ct pk : Bytes) (sm : auth)
    (hpk : s.peer.pubkey = some pk) (hdec : decryptSubMessage gob s ct = .ok sm) :
    (sm.ID.ID ≠ sliceBytes s.peer.id →
      verify gob s ct = .returned (some (.idMismatch sm.ID.ID (sliceBytes s.peer.id)))) ∧
    (sm.ID.ID = sliceBytes s.peer.id → sm.ID.PublicKey ≠ pk →
      verify gob s ct = .returned (some .pubkeyMismatch)) ∧
    (sm.ID.ID = sliceBytes s.peer.id → sm.ID.PublicKey = pk →
      sm.Mac ≠ s.hash.Hmac (sliceBytes s.peer.id) s.sk.km →
      verify gob s ct = .returned (some .invalidMac)) ∧
    (sm.ID.ID = sliceBytes s.peer.id → sm.ID.PublicKey = pk →
      sm.Mac = s.hash.Hmac (sliceBytes s.peer.id) s.sk.km →
      s.sig.Verify pk (s.dh.exp ++ s.dh.peerExp) sm.Sig = false →
      verify gob s ct = .returned (some .invalidSignature)) ∧
    (verify gob s ct = .returned none ↔
      (sm.ID.ID = sliceBytes s.peer.id ∧ sm.ID.PublicKey = pk ∧
        sm.Mac = s.hash.Hmac (sliceBytes s.peer.id) s.sk.km ∧
        s.sig.Verify pk (s.dh.exp ++ s.dh.peerExp) sm.Sig = true)) :=
  ⟨verify_id_mismatch gob s ct pk sm hpk hdec,
   verify_pubkey_mismatch gob s ct pk sm hpk hdec,
   verify_mac_mismatch gob s ct pk sm hpk hdec,
   verify_signature_mismatch gob s ct pk sm hpk hdec,
   verify_decoded_success_iff gob s ct pk sm hpk hdec⟩

theorem verify_first_failing_check_witness :
    bob.peer.pubkey = some PkA ∧
    decryptSubMessage fixtureGob bob aliceCiphertext = .ok (responseMessage alice) ∧
    verify fixtureGob bob aliceCiphertext = .returned none :=
  ⟨rfl, rfl,
   (verify_first_failing_check fixtureGob bob aliceCiphertext PkA (responseMessage alice)
      rfl rfl).2.2.2.2.mpr ⟨by decide, by decide, by decide, by decide⟩⟩

/-! ### C6: the message built by `encryptedResponse` -/

/-- C6: for every instance, `encryptedResponse` returns `encryptSubMessage` of
the message whose identity is the own identifier with the signer's public key,
whose signature is the signature of `peerExp ++ exp` (peer share first) and
whose MAC is the MAC of the own identifier under `km`. -/
theorem encryptedResponse_message (gob : Gob) (s : SigmaI) :
    encryptedResponse gob s = encryptSubMessage gob s
      { ID := { ID := s.id, PublicKey := s.sig.GetPublicKey }
        Sig := s.sig.signBytes (s.dh.peerExp ++ s.dh.exp)
        Mac := s.hash.Hmac s.id s.sk.km } := by
  simp [encryptedResponse, responseMessage, Signature.Sign, concatenate]

/-! ### C7: round trip of the sub-message -/

theorem encryptSubMessage_ok (gob : Gob) (s : SigmaI) (m : auth) (buf : Bytes)
    (henc : gob.Encode m = .ok buf) :
    encryptSubMessage gob s m = .ok (s.rkr.Encrypt s.sk.ke buf) := by
  simp [encryptSubMessage, henc]

theorem decryptSubMessage_ok (gob : Gob) (s : SigmaI) (c p : Bytes) (m : auth)
    (hdec : s.rkr.Decrypt s.sk.ke c = .ok p) (hcodec : gob.Decode p = .ok m) :
    decryptSubMessage gob s c = .ok m := by
  simp [decryptSubMessage, hdec, hcodec]

/-- C7: for every instance and every message `m` whose encoding succeeds with
bytes `buf`, if the codec decodes `buf` back to `m` and the provider decrypts
the encryption of `buf` under `ke` back to `buf`, then `encryptSubMessage m`
succeeds and `decryptSubMessage` of its result returns `m` itself (the provider
laws are needed at these two points only). -/
theorem subMessage_round_trip (gob : Gob) (s : SigmaI) (m : auth) (buf : Bytes)
    (henc : gob.Encode m = .ok buf) (hcodec : gob.Decode buf = .ok m)
    (hae : s.rkr.Decrypt s.sk.ke (s.rkr.Encrypt s.sk.ke buf) = .ok buf) :
    ∃ c : Bytes, encryptSubMessage gob s m = .ok c ∧
      ∃ m2 : auth, decryptSubMessage gob s c = .ok m2 ∧
        m2.ID.ID = m.ID.ID ∧ m2.ID.PublicKey = m.ID.PublicKey ∧
        m2.Sig = m.Sig ∧ m2.Mac = m.Mac ∧ m2 = m :=
  ⟨s.rkr.Encrypt s.sk.ke buf, encryptSubMessage_ok gob s m buf henc,
   m, decryptSubMessage_ok gob s _ buf m hae hcodec, rfl, rfl, rfl, rfl, rfl⟩

theorem subMessage_round_trip_witness :
    ∃ c : Bytes, encryptSubMessage fixtureGob bob (responseMessage alice) = .ok c ∧
      ∃ m2 : auth, decryptSubMessage fixtureGob bob c = .ok m2 ∧
        m2.ID.ID = aliceId ∧ m2.ID.PublicKey = PkA ∧
        m2.Sig = (responseMessage alice).Sig ∧ m2.Mac = (responseMessage alice).Mac ∧
        m2 = responseMessage alice :=
  subMessage_round_trip fixtureGob bob (responseMessage alice)
    (aliceCiphertext.drop 2) rfl rfl rfl

/-! ### C8: an honest handshake is accepted -/

/-- What the receiver `B` decodes from the ciphertext of a sender `A` that
encrypted the message `m`, when the two share `ke` and the providers round-trip
at `m`. -/
theorem decrypt_of_encrypt (gob : Gob) (A B : SigmaI) (m : auth) (buf : Bytes)
    (hsk : B.sk = A.sk) (henc : gob.Encode m = .ok buf) (hcodec : gob.Decode buf = .ok m)
    (hae : B.rkr.Decrypt A.sk.ke (A.rkr.Encrypt A.sk.ke buf) = .ok buf) :
    encryptSubMessage gob A m = .ok (A.rkr.Encrypt A.sk.ke buf) ∧
    decryptSubMessage gob B (A.rkr.Encrypt A.sk.ke buf) = .ok m := by
  refine ⟨encryptSubMessage_ok gob A m buf henc, ?_⟩
  apply decryptSubMessage_ok gob B _ buf m _ hcodec
  rw [hsk]
  exact hae

/-- C8: for every sender `A` and receiver `B` that share `km` and `ke`, with
the shares of `B` those of `A` exchanged, the peer state of `B` set to the
identifier and public key of `A`, the MAC provider of `B` agreeing with that of
`A`, the codec and the encryption round-tripping on the message of `A`, and the
signature of `A` over its transcript accepted under its public key:
`encryptedResponse` of `A` succeeds and `verify` of `B` on it returns success. -/
theorem honest_handshake (gob : Gob) (A B : SigmaI) (buf : Bytes)
    (hsk : B.sk = A.sk) (hown : B.dh.exp = A.dh.peerExp) (hshare : B.dh.peerExp = A.dh.exp)
    (hpeer : B.peer = { id := some A.id, pubkey := some A.sig.GetPublicKey })
    (hhash : B.hash.Hmac A.id A.sk.km = A.hash.Hmac A.id A.sk.km)
    (henc : gob.Encode (responseMessage A) = .ok buf)
    (hcodec : gob.Decode buf = .ok (responseMessage A))
    (hae : B.rkr.Decrypt A.sk.ke (A.rkr.Encrypt A.sk.ke buf) = .ok buf)
    (hsig : B.sig.Verify A.sig.GetPublicKey (A.dh.peerExp ++ A.dh.exp)
      (A.sig.signBytes (A.dh.peerExp ++ A.dh.exp)) = true) :
    ∃ c : Bytes, encryptedResponse gob A = .ok c ∧ verify gob B c = .returned none := by
  obtain ⟨he, hd⟩ := decrypt_of_encrypt gob A B (responseMessage A) buf hsk henc hcodec hae
  refine ⟨A.rkr.Encrypt A.sk.ke buf, he, ?_⟩
  have hpk : B.peer.pubkey = some A.sig.GetPublicKey := by rw [hpeer]
  have hid : sliceBytes B.peer.id = A.id := by rw [hpeer]; rfl
  apply verify_all_pass gob B _ A.sig.GetPublicKey (responseMessage A) hpk hd
  · rw [hid]; rfl
  · rfl
  · rw [hid, hsk, hhash]; rfl
  · rw [hown, hshare]
    simpa [responseMessage, Signature.Sign, concatenate] using hsig

theorem honest_handshake_witness :
    alice.id = aliceId ∧ alice.sig.GetPublicKey = PkA ∧
    alice.sk.km = List.replicate 31 0 ++ [1] ∧
    ∃ c : Bytes, encryptedResponse fixtureGob alice = .ok c ∧
      verify fixtureGob bob c = .returned none :=
  ⟨rfl, rfl, rfl,
   honest_handshake fixtureGob alice bob (aliceCiphertext.drop 2)
     rfl rfl rfl rfl rfl rfl rfl rfl (by decide)⟩

/-! ### C9: the order of the shares under the signature -/

/-- The fixture signer accepts a signature only for the bytes that were
signed. -/
theorem fixtureSignature_exact (pk pk2 x y : Bytes)
    (h : (fixtureSignature pk2).Verify pk x ((fixtureSignature pk).signBytes y) = true) :
    x = y := by
  simp only [fixtureSignature, decide_eq_true_eq] at h
  exact (List.append_cancel_left h).symm

/-- C9 as stated fails: when the two shares are equal the swapped transcript is
the same byte string, and the receiver accepts the response of the sender that
signed own share first, with everything else honest and a signer that accepts a
signature only for the bytes that were signed. -/
theorem swapped_transcript_accepted :
    dave.sk = carol.sk ∧ dave.dh.exp = carol.dh.peerExp ∧ dave.dh.peerExp = carol.dh.exp ∧
    dave.peer = { id := some carol.id, pubkey := some carol.sig.GetPublicKey } ∧
    (∀ x y : Bytes, dave.sig.Verify carol.sig.GetPublicKey x (carol.sig.signBytes y) = true →
      x = y) ∧
    swappedResponse fixtureGob carol = .ok carolCiphertext ∧
    verify fixtureGob dave carolCiphertext = .returned none :=
  ⟨rfl, rfl, rfl, rfl, fun x y h => fixtureSignature_exact PkA PkB x y h, rfl, by decide⟩

/-- C9 amended: for every pair of shares whose two concatenations differ
(`exp ++ peerExp ≠ peerExp ++ exp`), if the sender signs own share first, with
everything else honest and a signer whose `Verify` accepts a signature only for
the bytes that were signed, the swapped response is produced and the receiver's
`verify` returns the invalid-signature error. -/
theorem swapped_transcript_rejected (gob : Gob) (A B : SigmaI) (buf : Bytes)
    (hsk : B.sk = A.sk) (hown : B.dh.exp = A.dh.peerExp) (hshare : B.dh.peerExp = A.dh.exp)
    (hpeer : B.peer = { id := some A.id, pubkey := some A.sig.GetPublicKey })
    (hhash : B.hash.Hmac A.id A.sk.km = A.hash.Hmac A.id A.sk.km)
    (henc : gob.Encode (swappedResponseMessage A) = .ok buf)
    (hcodec : gob.Decode buf = .ok (swappedResponseMessage A))
    (hae : B.rkr.Decrypt A.sk.ke (A.rkr.Encrypt A.sk.ke buf) = .ok buf)
    (hexact : ∀ x y : Bytes,
      B.sig.Verify A.sig.GetPublicKey x (A.sig.signBytes y) = true → x = y)
    (hne : A.dh.exp ++ A.dh.peerExp ≠ A.dh.peerExp ++ A.dh.exp) :
    ∃ c : Bytes, swappedResponse gob A = .ok c ∧
      verify gob B c = .returned (some .invalidSignature) := by
  obtain ⟨he, hd⟩ :=
    decrypt_of_encrypt gob A B (swappedResponseMessage A) buf hsk henc hcodec hae
  refine ⟨A.rkr.Encrypt A.sk.ke buf, he, ?_⟩
  have hpk : B.peer.pubkey = some A.sig.GetPublicKey := by rw [hpeer]
  have hid : sliceBytes B.peer.id = A.id := by rw [hpeer]; rfl
  apply verify_signature_mismatch gob B _ A.sig.GetPublicKey (swappedResponseMessage A) hpk hd
  · rw [hid]; rfl
  · rfl
  · rw [hid, hsk, hhash]; rfl
  · rw [hown, hshare]
    cases hv : B.sig.Verify A.sig.GetPublicKey (A.dh.peerExp ++ A.dh.exp)
        (swappedResponseMessage A).Sig
    · rfl
    · exfalso
      apply hne
      have hx := hexact (A.dh.peerExp ++ A.dh.exp) (A.dh.exp ++ A.dh.peerExp)
        (by simpa [swappedResponseMessage, Signature.Sign, concatenate] using hv)
      exact hx.symm

theorem swapped_transcript_rejected_witness :
    alice.dh.exp ++ alice.dh.peerExp ≠ alice.dh.peerExp ++ alice.dh.exp ∧
    ∃ c : Bytes, swappedResponse fixtureGob alice = .ok c ∧
      verify fixtureGob bob c = .returned (some .invalidSignature) :=
  ⟨by decide,
   swapped_transcript_rejected fixtureGob alice bob (aliceSwappedCiphertext.drop 2)
     rfl rfl rfl rfl rfl rfl rfl rfl
     (fun x y h => fixtureSignature_exact PkA PkB x y h) (by decide)⟩

/-! ### C10: both parties use the same transcript -/

/-- C10: for every two instances `A` and `B` with the own share of `A` the peer
share of `B` and the peer share of `A` the own share of `B`, the bytes that `A`
signs in `encryptedResponse` (`peerExp ++ exp` of `A`) are the bytes that `B`
checks the signature against in `verify` (`exp ++ peerExp` of `B`), and the
signature in the message of `A` is the signature of those bytes. -/
theorem transcript_agreement (A B : SigmaI)
    (hown : A.dh.exp = B.dh.peerExp) (hshare : A.dh.peerExp = B.dh.exp) :
    concatenate [A.dh.peerExp, A.dh.exp] = verifyTranscript B ∧
    A.dh.peerExp ++ A.dh.exp = B.dh.exp ++ B.dh.peerExp ∧
    (responseMessage A).Sig = A.sig.signBytes (verifyTranscript B) := by
  simp [concatenate, verifyTranscript, responseMessage, Signature.Sign, hown, hshare]

theorem transcript_agreement_witness :
    alice.dh.exp = bob.dh.peerExp ∧ alice.dh.peerExp = bob.dh.exp ∧
    concatenate [alice.dh.peerExp, alice.dh.exp] = verifyTranscript bob ∧
    alice.dh.peerExp ++ alice.dh.exp = bob.dh.exp ++ bob.dh.peerExp ∧
    (responseMessage alice).Sig = alice.sig.signBytes (verifyTranscript bob) :=
  ⟨rfl, rfl, transcript_agreement alice bob rfl rfl⟩

/-! ### Shared lemmas on the result pairs and the instance after a call -/

theorem decryptSubMessagePair_eq (gob : Gob) (s : SigmaI) (c : Bytes) :
    decryptSubMessagePair gob s c =
      match decryptSubMessage gob s c with
      | .ok sm => (some sm, none)
      | .error err => (none, some err) := by
  unfold decryptSubMessagePair decryptSubMessage
  cases hdec : s.rkr.Decrypt s.sk.ke c with
  | error err => rfl
  | ok p =>
    simp only
    cases hcodec : gob.Decode p with
    | error err => rfl
    | ok sm => rfl

theorem verifyPair_eq (gob : Gob) (s : SigmaI) (ct : Bytes) :
    verifyPair gob s ct = verify gob s ct := by
  unfold verifyPair verify
  cases s.peer.pubkey with
  | none => rfl
  | some pubkey =>
    simp only [decryptSubMessagePair_eq]
    cases decryptSubMessage gob s ct with
    | error err => rfl
    | ok sm => rfl

theorem verifyState_fst (gob : Gob) (spare : Nat) (s : SigmaI) (ct : Bytes) :
    (verifyState gob spare s ct).1 = verify gob s ct := by
  unfold verifyState verify
  cases s.peer.pubkey with
  | none => rfl
  | some pubkey =>
    simp only [decryptSubMessagePair_eq]
    cases decryptSubMessage gob s ct with
    | error err => rfl
    | ok sm =>
      simp only
      split_ifs <;> rfl

/-- The instance after `verify` is the instance before it, or the exit path
lies after line 99: the message was decoded and `verify` returned success or
the invalid-signature error, and the instance is `afterAppend spare s`. -/
theorem verifyState_snd (gob : Gob) (spare : Nat) (s : SigmaI) (ct : Bytes) :
    (verifyState gob spare s ct).2 = some s ∨
    ((verifyState gob spare s ct).2 = afterAppend spare s ∧
      (∃ sm : auth, decryptSubMessage gob s ct = .ok sm) ∧
      (verify gob s ct = .returned none ∨
        verify gob s ct = .returned (some .invalidSignature))) := by
  unfold verifyState verify
  cases s.peer.pubkey with
  | none => exact Or.inl rfl
  | some pubkey =>
    simp only [decryptSubMessagePair_eq]
    cases hdec : decryptSubMessage gob s ct with
    | error err => exact Or.inl rfl
    | ok sm =>
      simp only
      split_ifs
      · exact Or.inl rfl
      · exact Or.inl rfl
      · exact Or.inl rfl
      · exact Or.inr ⟨rfl, ⟨sm, rfl⟩, Or.inr rfl⟩
      · exact Or.inr ⟨rfl, ⟨sm, rfl⟩, Or.inl rfl⟩

theorem verify_returns (gob : Gob) (s : SigmaI) (ct pk : Bytes)
    (hpk : s.peer.pubkey = some pk) : ∃ r : Option GoError, verify gob s ct = .returned r := by
  unfold verify
  rw [hpk]
  cases decryptSubMessage gob s ct with
  | error err => exact ⟨none, rfl⟩
  | ok sm =>
    simp only
    split_ifs <;> exact ⟨_, rfl⟩

/-! ### C11: what `decryptSubMessage` returns -/

/-- C11: for every ciphertext `c`, `decryptSubMessage c` returns the message
`sm` exactly when `Decrypt ke c` succeeds with some plaintext `p` and `p`
decodes to `sm`; when decryption fails with `e` it returns `e` and no message,
whatever the codec is (the plaintext is never decoded); when the plaintext
fails to decode with `e` it returns `e` and no message. -/
theorem decryptSubMessage_spec (gob : Gob) (s : SigmaI) (c : Bytes) :
    (∀ sm : auth, decryptSubMessage gob s c = .ok sm ↔
      ∃ p : Bytes, s.rkr.Decrypt s.sk.ke c = .ok p ∧ gob.Decode p = .ok sm) ∧
    (∀ e : GoError, s.rkr.Decrypt s.sk.ke c = .error e →
      ∀ gob2 : Gob, decryptSubMessage gob2 s c = .error e ∧
        decryptSubMessagePair gob2 s c = (none, some e)) ∧
    (∀ (p : Bytes) (e : GoError), s.rkr.Decrypt s.sk.ke c = .ok p →
      gob.Decode p = .error e →
      decryptSubMessage gob s c = .error e ∧
        decryptSubMessagePair gob s c = (none, some e)) := by
  refine ⟨?_, ?_, ?_⟩
  · intro sm
    constructor
    · intro h
      unfold decryptSubMessage at h
      cases hdec : s.rkr.Decrypt s.sk.ke c with
      | error err => rw [hdec] at h; cases h
      | ok p =>
        rw [hdec] at h
        simp only at h
        cases hcodec : gob.Decode p with
        | error err => rw [hcodec] at h; cases h
        | ok sm2 =>
          rw [hcodec] at h
          cases h
          exact ⟨p, rfl, hcodec⟩
    · rintro ⟨p, hdec, hcodec⟩
      exact decryptSubMessage_ok gob s c p sm hdec hcodec
  · intro e hdec gob2
    constructor
    · simp [decryptSubMessage, hdec]
    · simp [decryptSubMessagePair, hdec]
  · intro p e hdec hcodec
    constructor
    · simp [decryptSubMessage, hdec, hcodec]
    · simp [decryptSubMessagePair, hdec, hcodec]

theorem decryptSubMessage_spec_witness :
    decryptSubMessage fixtureGob bob aliceCiphertext = .ok (responseMessage alice) ∧
    decryptSubMessage fixtureGob bob forgedCiphertext
      = .error (.external "rkr: authentication failed") ∧
    decryptSubMessagePair fixtureGob bob garbledCiphertext
      = (none, some (.external "gob: unexpected EOF")) :=
  ⟨((decryptSubMessage_spec fixtureGob bob aliceCiphertext).1 (responseMessage alice)).mpr
      ⟨aliceCiphertext.drop 2, rfl, rfl⟩,
   ((decryptSubMessage_spec fixtureGob bob forgedCiphertext).2.1 _ rfl fixtureGob).1,
   ((decryptSubMessage_spec fixtureGob bob garbledCiphertext).2.2 [200] _ rfl rfl).2⟩

/-! ### C12: what `encryptSubMessage` returns -/

/-- C12: for every message `m`, when the encoding succeeds with `buf`,
`encryptSubMessage m` returns `Encrypt ke buf` (under the encryption key `ke`)
and no error; it returns an error `e` exactly when the encoding fails with `e`,
and then returns no ciphertext. -/
theorem encryptSubMessage_spec (gob : Gob) (s : SigmaI) (m : auth) :
    (∀ buf : Bytes, gob.Encode m = .ok buf →
      encryptSubMessage gob s m = .ok (s.rkr.Encrypt s.sk.ke buf) ∧
        (encryptSubMessageState gob s m).1 = (some (s.rkr.Encrypt s.sk.ke buf), none)) ∧
    (∀ e : GoError, encryptSubMessage gob s m = .error e ↔ gob.Encode m = .error e) ∧
    (∀ e : GoError, gob.Encode m = .error e →
      (encryptSubMessageState gob s m).1 = (none, some e)) := by
  refine ⟨?_, ?_, ?_⟩
  · intro buf henc
    constructor
    · exact encryptSubMessage_ok gob s m buf henc
    · simp [encryptSubMessageState, henc]
  · intro e
    unfold encryptSubMessage
    cases henc : gob.Encode m with
    | error err => simp
    | ok buf => simp
  · intro e henc
    simp [encryptSubMessageState, henc]

set_option maxRecDepth 8000 in
theorem encryptSubMessage_spec_witness :
    encryptSubMessage fixtureGob alice (responseMessage alice) = .ok aliceCiphertext ∧
    encryptSubMessage fixtureGob alice oversized = .error (.external "gob: field too long") ∧
    (encryptSubMessageState fixtureGob alice oversized).1
      = (none, some (.external "gob: field too long")) :=
  ⟨((encryptSubMessage_spec fixtureGob alice (responseMessage alice)).1
      (aliceCiphertext.drop 2) rfl).1,
   ((encryptSubMessage_spec fixtureGob alice oversized).2.1 _).mpr rfl,
   (encryptSubMessage_spec fixtureGob alice oversized).2.2 _ rfl⟩

/-! ### C13: the session keys after `verify` -/

/-- C13 as stated fails: after `verify` has returned on a ciphertext that does
not decode, and after it has returned success on the honest response (the own
share having no spare capacity), the instance still holds the MAC key and the
encryption key it held before the call; neither is cleared. -/
theorem verify_leaves_keys_in_place :
    (verifyState fixtureGob 0 bob garbledCiphertext).1 = .returned none ∧
    (verifyState fixtureGob 0 bob garbledCiphertext).2.map (fun t => t.sk.km)
      = some fixtureKm ∧
    (verifyState fixtureGob 0 bob garbledCiphertext).2.map (fun t => cleared t.sk.km)
      = some false ∧
    (verifyState fixtureGob 0 bob garbledCiphertext).2.map (fun t => cleared t.sk.ke)
      = some false ∧
    (verifyState fixtureGob 0 bob aliceCiphertext).1 = .returned none ∧
    (verifyState fixtureGob 0 bob aliceCiphertext).2.map (fun t => cleared t.sk.km)
      = some false ∧
    (verifyState fixtureGob 0 bob aliceCiphertext).2.map (fun t => cleared t.sk.ke)
      = some false :=
  ⟨by decide, by decide, by decide, by decide, by decide, by decide, by decide⟩

/-- C13 amended: `verify` does not clear the session keys.  On the exit paths
before the signature check (the precondition panic, a decrypt or decode
failure, an identifier, public-key or MAC mismatch), and on the two paths after
it (success, invalid signature) when the append of line 99 does not write in
place, the instance after the call holds the MAC key and the encryption key it
held before the call.  Nothing is stated for an append that writes in place. -/
theorem verify_keeps_session_keys (gob : Gob) (spare : Nat) (s : SigmaI) (ct : Bytes)
    (hpath : (∃ msg : String, verify gob s ct = .panicked msg) ∨
      (∃ e : GoError, decryptSubMessage gob s ct = .error e) ∨
      (∃ got want : Bytes, verify gob s ct = .returned (some (.idMismatch got want))) ∨
      verify gob s ct = .returned (some .pubkeyMismatch) ∨
      verify gob s ct = .returned (some .invalidMac) ∨
      appendInPlace spare s.dh.peerExp = false) :
    (verifyState gob spare s ct).1 = verify gob s ct ∧
    (verifyState gob spare s ct).2.map (fun t => t.sk.km) = some s.sk.km ∧
    (verifyState gob spare s ct).2.map (fun t => t.sk.ke) = some s.sk.ke := by
  have hsome : (verifyState gob spare s ct).2 = some s := by
    rcases verifyState_snd gob spare s ct with h | ⟨h, ⟨sm, hsm⟩, hout⟩
    · exact h
    · rcases hpath with ⟨msg, hp⟩ | ⟨e, he⟩ | ⟨got, want, hp⟩ | hp | hp | hp
      · rcases hout with ho | ho <;> rw [ho] at hp <;> cases hp
      · rw [hsm] at he; cases he
      · rcases hout with ho | ho <;> rw [ho] at hp <;> cases hp
      · rcases hout with ho | ho <;> rw [ho] at hp <;> cases hp
      · rcases hout with ho | ho <;> rw [ho] at hp <;> cases hp
      · rw [h]
        simp [afterAppend, hp]
  refine ⟨verifyState_fst gob spare s ct, ?_, ?_⟩
  · rw [hsome]; rfl
  · rw [hsome]; rfl

theorem verify_keeps_session_keys_witness :
    appendInPlace 0 bob.dh.peerExp = false ∧
    ((verifyState fixtureGob 0 bob aliceCiphertext).1 = verify fixtureGob bob aliceCiphertext ∧
    (verifyState fixtureGob 0 bob aliceCiphertext).2.map (fun t => t.sk.km) = some bob.sk.km ∧
    (verifyState fixtureGob 0 bob aliceCiphertext).2.map (fun t => t.sk.ke) = some bob.sk.ke) :=
  ⟨by decide,
   verify_keeps_session_keys fixtureGob 0 bob aliceCiphertext
     (Or.inr (Or.inr (Or.inr (Or.inr (Or.inr (by decide))))))⟩

/-- When the peer share fits in the spare capacity of the own share, the two
exit paths after line 99 leave an instance that this model does not
determine. -/
theorem verifyState_in_place :
    appendInPlace 3 bob.dh.peerExp = true ∧
    (verifyState fixtureGob 3 bob aliceCiphertext).1 = .returned none ∧
    (verifyState fixtureGob 3 bob aliceCiphertext).2.isNone = true :=
  ⟨by decide, by decide, by decide⟩

/-! ### C14: `encryptedResponse` leaves the instance as it was -/

theorem encryptSubMessageState_snd (gob : Gob) (s : SigmaI) (m : auth) :
    (encryptSubMessageState gob s m).2 = s := by
  unfold encryptSubMessageState
  cases henc : gob.Encode m with
  | error err => rfl
  | ok buf => rfl

theorem encryptSubMessageState_fst (gob : Gob) (s : SigmaI) (m : auth) :
    (encryptSubMessageState gob s m).1 =
      match encryptSubMessage gob s m with
      | .ok c => (some c, none)
      | .error err => (none, some err) := by
  unfold encryptSubMessageState encryptSubMessage
  cases henc : gob.Encode m with
  | error err => rfl
  | ok buf => rfl

/-- C14: for every instance, the instance after `encryptedResponse` is the
instance before it (own identifier, shares, session keys and peer state
included), whether the call returns a ciphertext or an error; and what the call
returns is the result of `encryptedResponse` as a Go pair. -/
theorem encryptedResponse_frame (gob : Gob) (s : SigmaI) :
    (encryptedResponseState gob s).2 = s ∧
    (encryptedResponseState gob s).2.id = s.id ∧
    (encryptedResponseState gob s).2.dh = s.dh ∧
    (encryptedResponseState gob s).2.sk = s.sk ∧
    (encryptedResponseState gob s).2.peer = s.peer ∧
    (encryptedResponseState gob s).1 =
      match encryptedResponse gob s with
      | .ok c => (some c, none)
      | .error err => (none, some err) := by
  have h : (encryptedResponseState gob s).2 = s :=
    encryptSubMessageState_snd gob s (responseMessage s)
  refine ⟨h, by rw [h], by rw [h], by rw [h], by rw [h], ?_⟩
  exact encryptSubMessageState_fst gob s (responseMessage s)

/-! ### C16: `verify` returns when the peer public key is set -/

/-- C16: when the peer public key is set, for every ciphertext `verify`
returns (success or an error) and does not panic; `decryptSubMessage` returns
either a message and no error or an error and no message, so the read of the
decoded message through a nil pointer is never reached. -/
theorem verify_total (gob : Gob) (s : SigmaI) (ct pk : Bytes)
    (hpk : s.peer.pubkey = some pk) :
    (∃ r : Option GoError, verify gob s ct = .returned r) ∧
    (∃ r : Option GoError, verifyPair gob s ct = .returned r) ∧
    verifyPair gob s ct ≠ .panicked nilDereferencePanic ∧
    ((∃ sm : auth, decryptSubMessagePair gob s ct = (some sm, none)) ∨
      (∃ e : GoError, decryptSubMessagePair gob s ct = (none, some e))) := by
  obtain ⟨r, hr⟩ := verify_returns gob s ct pk hpk
  have hst : verifyPair gob s ct = .returned r := by
    rw [verifyPair_eq]; exact hr
  refine ⟨⟨r, hr⟩, ⟨r, hst⟩, ?_, ?_⟩
  · rw [hst]
    intro h
    cases h
  · rw [decryptSubMessagePair_eq]
    cases decryptSubMessage gob s ct with
    | error err => exact Or.inr ⟨err, rfl⟩
    | ok sm => exact Or.inl ⟨sm, rfl⟩

theorem verify_total_witness :
    bob.peer.pubkey = some PkA ∧
    ((∃ r : Option GoError, verify fixtureGob bob garbledCiphertext = .returned r) ∧
    (∃ r : Option GoError, verifyPair fixtureGob bob garbledCiphertext = .returned r) ∧
    verifyPair fixtureGob bob garbledCiphertext ≠ .panicked nilDereferencePanic ∧
    ((∃ sm : auth, decryptSubMessagePair fixtureGob bob garbledCiphertext = (some sm, none)) ∨
      (∃ e : GoError, decryptSubMessagePair fixtureGob bob garbledCiphertext
        = (none, some e)))) :=
  ⟨rfl, verify_total fixtureGob bob garbledCiphertext PkA rfl⟩

end sigmai
